import Mathlib

/-!
Verification of the classroom-engagement-system fusion pipeline.

Shallow embedding of the metric, merging, alignment, silence, filler and
sentiment computations of the backend task modules, over exact rationals.
Python floats are modelled as `ℚ`; Python `round(x, 2)` (round half to even)
is modelled exactly by `round2`.
-/

/-- Python `round` to the nearest integer, half to even (banker's rounding). -/
def pyRound (q : ℚ) : ℤ :=
  let f : ℤ := ⌊q⌋
  if q - f < 1/2 then f
  else if 1/2 < q - f then f + 1
  else if f % 2 = 0 then f else f + 1

/-- Python `round(x, 2)`. -/
def round2 (q : ℚ) : ℚ := (pyRound (q * 100) : ℚ) / 100

/-- A diarization speaker segment (`SpeakerSegment` of `app/models/meeting.py`):
start and end times in seconds and the attributed speaker. `stop` embeds the
source field `end` (a Lean keyword). -/
structure Seg where
  start : ℚ
  stop : ℚ
  speakerId : String
  confidence : ℚ := 1
  deriving DecidableEq, Repr

/-! ## `calculate_engagement_metrics` (`app/tasks/diarization.py`, lines 82-133) -/

/-- Insert-or-add on an insertion-ordered association list: the accumulation
`speaker_talk_time[speaker_id] += talk_time` (with zero initialisation) of
`calculate_engagement_metrics`, `diarization.py` lines 89-101. -/
def updTalk : List (String × ℚ) → String → ℚ → List (String × ℚ)
  | [], sid, d => [(sid, d)]
  | (k, v) :: rest, sid, d =>
      if k = sid then (k, v + d) :: rest else (k, v) :: updTalk rest sid d

/-- `speaker_talk_time` of `calculate_engagement_metrics`: per-speaker summed
segment durations, keyed in first-occurrence order. -/
def speaker_talk_time (segs : List Seg) : List (String × ℚ) :=
  segs.foldl (fun acc g => updTalk acc g.speakerId (g.stop - g.start)) []

/-- Sum of the values of an association list (`sum(d.values())`). -/
def sumValues (l : List (String × ℚ)) : ℚ := (l.map Prod.snd).sum

/-- `speaker_participation` of `calculate_engagement_metrics` lines 104-109:
`round(talk_time / total_talk_time * 100, 2)` when the total is positive,
otherwise `0`. -/
def speaker_participation (segs : List Seg) : List (String × ℚ) :=
  let tt := speaker_talk_time segs
  let total := sumValues tt
  tt.map fun p => (p.1, if 0 < total then round2 (p.2 / total * 100) else 0)

/-- `turn_count` of `calculate_engagement_metrics` lines 111-116: the number of
adjacent segment pairs whose speaker differs. -/
def turn_count : List Seg → Nat
  | a :: b :: rest =>
      (if a.speakerId ≠ b.speakerId then 1 else 0) + turn_count (b :: rest)
  | _ => 0

/-- `turn_taking_frequency` of `calculate_engagement_metrics` line 118:
`turn_count / (duration / 60)` when the duration is positive, otherwise `0`. -/
def turn_taking_frequency (segs : List Seg) (duration : ℚ) : ℚ :=
  if 0 < duration then (turn_count segs : ℚ) / (duration / 60) else 0

/-- Python `max` over a list of rationals (the empty case is unused: the
source guards it). -/
def listMax : List ℚ → ℚ
  | [] => 0
  | [x] => x
  | x :: y :: rest => max x (listMax (y :: rest))

/-- `max(speaker_participation.values()) if speaker_participation else 0`,
`diarization.py` line 122. -/
def max_participation (segs : List Seg) : ℚ :=
  match speaker_participation segs with
  | [] => 0
  | l => listMax (l.map Prod.snd)

/-- `balance_score = 100 - abs(100 - max_participation)`, line 123. -/
def balance_score (segs : List Seg) : ℚ :=
  100 - |100 - max_participation segs|

/-- `turn_score = min(100, (turn_taking_frequency / 2) * 100)`, line 124. -/
def turn_score (segs : List Seg) (duration : ℚ) : ℚ :=
  min 100 (turn_taking_frequency segs duration / 2 * 100)

/-- `engagement_score = balance_score * 0.4 + turn_score * 0.6`, line 125,
rounded to two decimals for the returned metrics dictionary (line 131). -/
def engagement_score (segs : List Seg) (duration : ℚ) : ℚ :=
  round2 (balance_score segs * (4/10) + turn_score segs duration * (6/10))

/-- Scenario D of the spec: two highly imbalanced segments. -/
def scenarioD : List Seg := [⟨0, 100, "S1", 1⟩, ⟨100, 105, "S2", 1⟩]

/-- Scenario C of the spec: four alternating two-second segments. -/
def scenarioC : List Seg :=
  [⟨0, 2, "S1", 1⟩, ⟨2, 4, "S2", 1⟩, ⟨4, 6, "S1", 1⟩, ⟨6, 8, "S2", 1⟩]

/-! ### Evaluation lemmas for Scenario D -/

lemma talk_time_scenarioD : speaker_talk_time scenarioD = [("S1", 100), ("S2", 5)] := by
  simp only [scenarioD, speaker_talk_time, updTalk, List.foldl]
  norm_num
  decide

lemma participation_scenarioD :
    speaker_participation scenarioD = [("S1", 2381/25), ("S2", 119/25)] := by
  simp only [speaker_participation, talk_time_scenarioD, sumValues, List.map]
  norm_num [round2, pyRound]

lemma engagement_scenarioD : engagement_score scenarioD 105 = 1381/25 := by
  have hmax : max_participation scenarioD = 2381/25 := by
    simp only [max_participation, participation_scenarioD, List.map, listMax]
    norm_num
  have htc : turn_count scenarioD = 1 := by decide
  have hts : turn_score scenarioD 105 = 200/7 := by
    simp only [turn_score, turn_taking_frequency, htc]
    norm_num
  have hbal : balance_score scenarioD = 2381/25 := by
    simp only [balance_score, hmax]
    rw [abs_of_pos] <;> norm_num
  simp only [engagement_score, hbal, hts]
  norm_num [round2, pyRound]

/-- C1: the spec asserts Scenario D yields an engagement score strictly below
50, but the computation of `calculate_engagement_metrics` yields 55.24: the
balance term `100 - |100 - max participation|` is close to 100 precisely when
one speaker dominates, so the imbalanced input is not penalised. -/
theorem c1_counterexample : ¬ engagement_score scenarioD 105 < 50 := by
  rw [engagement_scenarioD]
  norm_num

/-- C1 (amended): for the segment list [(0,100,S1),(100,105,S2)] with duration
105, the engagement computation of `calculate_engagement_metrics` yields
engagementScore = 55.24, which is strictly greater than 50. -/
theorem c1_amended : engagement_score scenarioD 105 = 1381/25 ∧
    50 < engagement_score scenarioD 105 := by
  refine ⟨engagement_scenarioD, ?_⟩
  rw [engagement_scenarioD]
  norm_num

/-! ### C8: turn counting and turn-taking frequency -/

lemma turn_count_eq_zipCount (segs : List Seg) :
    turn_count segs
      = (segs.zip segs.tail).countP fun p => p.1.speakerId != p.2.speakerId := by
  induction segs with
  | nil => rfl
  | cons a rest ih =>
    cases rest with
    | nil => rfl
    | cons b rest' =>
      rw [turn_count]
      rw [ih]
      simp only [List.tail_cons, List.zip_cons_cons, List.countP_cons]
      by_cases h : a.speakerId = b.speakerId <;> simp [h, Nat.add_comm]

/-- C8: `turn_count` equals the number of chronologically adjacent segment
pairs with differing speakerId, `turn_taking_frequency` is
`turn_count / (duration/60)` for positive duration and 0 at duration 0, and
Scenario C evaluates to 22.5. -/
theorem c8_turn_taking :
    (∀ segs : List Seg, turn_count segs
        = (segs.zip segs.tail).countP fun p => p.1.speakerId != p.2.speakerId)
    ∧ (∀ (segs : List Seg) (d : ℚ), 0 < d →
        turn_taking_frequency segs d = (turn_count segs : ℚ) / (d / 60))
    ∧ (∀ segs : List Seg, turn_taking_frequency segs 0 = 0)
    ∧ turn_taking_frequency scenarioC 8 = 45/2 := by
  refine ⟨turn_count_eq_zipCount, ?_, ?_, ?_⟩
  · intro segs d hd
    simp [turn_taking_frequency, hd]
  · intro segs
    simp [turn_taking_frequency]
  · have htc : turn_count scenarioC = 3 := by decide
    simp only [turn_taking_frequency, htc]
    norm_num

/-- Witness for C8 at Scenario C with duration 8. -/
theorem c8_turn_taking_witness :
    0 < (8:ℚ) ∧
      turn_taking_frequency scenarioC 8 = (turn_count scenarioC : ℚ) / (8 / 60) :=
  ⟨by norm_num, c8_turn_taking.2.1 scenarioC 8 (by norm_num)⟩

/-! ### C9: talk-time conservation and participation sum -/

lemma sumValues_nil : sumValues [] = 0 := rfl

lemma sumValues_cons (p : String × ℚ) (l : List (String × ℚ)) :
    sumValues (p :: l) = p.2 + sumValues l := by
  simp [sumValues]

lemma sumValues_updTalk (acc : List (String × ℚ)) (sid : String) (d : ℚ) :
    sumValues (updTalk acc sid d) = sumValues acc + d := by
  induction acc with
  | nil => simp [updTalk, sumValues]
  | cons p rest ih =>
    obtain ⟨k, v⟩ := p
    by_cases h : k = sid
    · simp only [updTalk, if_pos h, sumValues_cons]
      ring
    · simp only [updTalk, if_neg h, sumValues_cons, ih]
      ring

lemma sumValues_foldl_talk (segs : List Seg) :
    ∀ acc : List (String × ℚ),
      sumValues (segs.foldl (fun acc g => updTalk acc g.speakerId (g.stop - g.start)) acc)
        = sumValues acc + (segs.map fun g => g.stop - g.start).sum := by
  induction segs with
  | nil => intro acc; simp
  | cons g rest ih =>
    intro acc
    simp only [List.foldl_cons, List.map_cons, List.sum_cons, ih, sumValues_updTalk]
    ring

/-- Conservation: the total of `speaker_talk_time` equals the total of all
segment durations. -/
lemma speaker_talk_time_sum (segs : List Seg) :
    sumValues (speaker_talk_time segs) = (segs.map fun g => g.stop - g.start).sum := by
  have h := sumValues_foldl_talk segs []
  simpa [speaker_talk_time, sumValues_nil] using h

lemma pyRound_abs_le (q : ℚ) : |(pyRound q : ℚ) - q| ≤ 1/2 := by
  have h0 : ((⌊q⌋ : ℤ) : ℚ) ≤ q := Int.floor_le q
  have h1 : q < (⌊q⌋ : ℤ) + 1 := Int.lt_floor_add_one q
  unfold pyRound
  by_cases hlt : q - (⌊q⌋ : ℤ) < 1/2
  · rw [if_pos hlt, abs_le]
    constructor <;> push_cast <;> linarith
  · rw [if_neg hlt]
    have hge : 1/2 ≤ q - (⌊q⌋ : ℤ) := not_lt.mp hlt
    by_cases hgt : 1/2 < q - (⌊q⌋ : ℤ)
    · rw [if_pos hgt, abs_le]
      constructor <;> push_cast <;> linarith
    · rw [if_neg hgt]
      have heq : q - (⌊q⌋ : ℤ) = 1/2 := le_antisymm (not_lt.mp hgt) hge
      by_cases hev : (⌊q⌋ : ℤ) % 2 = 0
      · rw [if_pos hev, abs_le]
        constructor <;> push_cast <;> linarith
      · rw [if_neg hev, abs_le]
        constructor <;> push_cast <;> linarith

lemma round2_abs_le (x : ℚ) : |round2 x - x| ≤ 1/200 := by
  have h := pyRound_abs_le (x * 100)
  have hrw : round2 x - x = ((pyRound (x * 100) : ℚ) - x * 100) / 100 := by
    unfold round2; ring
  rw [hrw, abs_div]
  rw [abs_of_pos (show (0:ℚ) < 100 by norm_num)]
  rw [div_le_iff (by norm_num : (0:ℚ) < 100)]
  linarith

lemma sum_map_round2_abs_le (l : List ℚ) :
    |(l.map round2).sum - l.sum| ≤ (l.length : ℚ) / 200 := by
  induction l with
  | nil => simp
  | cons x xs ih =>
    simp only [List.map_cons, List.sum_cons, List.length_cons]
    have h1 := round2_abs_le x
    have h2 : round2 x + (xs.map round2).sum - (x + xs.sum)
        = (round2 x - x) + ((xs.map round2).sum - xs.sum) := by ring
    rw [h2]
    calc |(round2 x - x) + ((xs.map round2).sum - xs.sum)|
        ≤ |round2 x - x| + |(xs.map round2).sum - xs.sum| := abs_add _ _
      _ ≤ 1/200 + (xs.length : ℚ) / 200 := add_le_add h1 ih
      _ = ((xs.length : ℚ) + 1) / 200 := by ring
      _ = (((xs.length + 1 : ℕ)) : ℚ) / 200 := by push_cast; ring

lemma sumValues_map_snd (l : List (String × ℚ)) (g : String × ℚ → ℚ) :
    sumValues (l.map fun p => (p.1, g p)) = (l.map g).sum := by
  simp [sumValues, List.map_map]
  rfl

lemma participation_sum_bound (segs : List Seg)
    (h : 0 < sumValues (speaker_talk_time segs)) :
    |sumValues (speaker_participation segs) - 100|
      ≤ ((speaker_talk_time segs).length : ℚ) / 200 := by
  set tt := speaker_talk_time segs with htt
  set total := sumValues tt with htotal
  have hne : total ≠ 0 := ne_of_gt h
  have hpart : speaker_participation segs
      = tt.map fun p => (p.1, round2 (p.2 / total * 100)) := by
    simp only [speaker_participation, ← htt, ← htotal, if_pos h]
  have hsum : sumValues (speaker_participation segs)
      = ((tt.map fun p => p.2 / total * 100).map round2).sum := by
    rw [hpart, sumValues_map_snd]
    simp [List.map_map]
    rfl
  have hys : (tt.map fun p => p.2 / total * 100).sum = 100 := by
    have hfe : (tt.map fun p => p.2 / total * 100)
        = tt.map fun p => p.2 * (100 / total) := by
      apply List.map_congr_left
      intro p _
      field_simp
    rw [hfe]
    have hmr : (tt.map fun p => p.2 * (100 / total)).sum
        = (tt.map Prod.snd).sum * (100 / total) := by
      rw [← List.sum_map_mul_right]
    rw [hmr]
    have : (tt.map Prod.snd).sum = total := rfl
    rw [this]
    field_simp
  have hlen : (tt.map fun p => p.2 / total * 100).length = tt.length := by
    simp
  have := sum_map_round2_abs_le (tt.map fun p => p.2 / total * 100)
  rw [hys, hlen] at this
  rw [hsum]
  exact this

lemma updTalk_of_not_mem (acc : List (String × ℚ)) (sid : String) (d : ℚ)
    (h : ∀ p ∈ acc, p.1 ≠ sid) : updTalk acc sid d = acc ++ [(sid, d)] := by
  induction acc with
  | nil => rfl
  | cons p rest ih =>
    have hp : p.1 ≠ sid := h p (by simp)
    obtain ⟨k, v⟩ := p
    simp only [updTalk, if_neg hp, List.cons_append]
    rw [ih]
    intro q hq
    exact h q (by simp [hq])

lemma foldl_talk_of_nodup (segs : List Seg) :
    ∀ acc : List (String × ℚ),
      (∀ p ∈ acc, ∀ g ∈ segs, p.1 ≠ g.speakerId) →
      (segs.map Seg.speakerId).Nodup →
      segs.foldl (fun acc g => updTalk acc g.speakerId (g.stop - g.start)) acc
        = acc ++ segs.map fun g => (g.speakerId, g.stop - g.start) := by
  induction segs with
  | nil => intro acc _ _; simp
  | cons g rest ih =>
    intro acc hdisj hnd
    simp only [List.map_cons, List.nodup_cons] at hnd
    simp only [List.foldl_cons]
    rw [updTalk_of_not_mem acc g.speakerId _ (fun p hp => hdisj p hp g (by simp))]
    rw [ih (acc ++ [(g.speakerId, g.stop - g.start)])]
    · simp
    · intro p hp g' hg'
      rcases List.mem_append.mp hp with hmem | hmem
      · exact hdisj p hmem g' (by simp [hg'])
      · simp only [List.mem_singleton] at hmem
        subst hmem
        intro hcontra
        apply hnd.1
        have hgg : g.speakerId = g'.speakerId := hcontra
        rw [hgg]
        exact List.mem_map_of_mem Seg.speakerId hg'
    · exact hnd.2

/-- When all speaker ids are distinct, `speaker_talk_time` is the list of
per-segment durations in order. -/
lemma speaker_talk_time_of_nodup (segs : List Seg)
    (h : (segs.map Seg.speakerId).Nodup) :
    speaker_talk_time segs = segs.map fun g => (g.speakerId, g.stop - g.start) := by
  have := foldl_talk_of_nodup segs [] (by simp) h
  simpa [speaker_talk_time] using this

/-- A meeting with 48 equally long speakers, one segment each. -/
def segs48 : List Seg :=
  (List.range 48).map fun (i : ℕ) => ⟨(i : ℚ), (i : ℚ) + 1, toString i, 1⟩

lemma segs48_speakers_nodup : (segs48.map Seg.speakerId).Nodup := by
  have h : segs48.map Seg.speakerId = (List.range 48).map toString := by
    rw [segs48, List.map_map]
    rfl
  rw [h]
  decide

lemma segs48_talk : speaker_talk_time segs48
    = (List.range 48).map fun i => (toString i, 1) := by
  rw [speaker_talk_time_of_nodup segs48 segs48_speakers_nodup]
  rw [segs48, List.map_map]
  apply List.map_congr_left
  intro i _
  simp only [Function.comp_apply, Prod.mk.injEq]
  exact ⟨trivial, by ring⟩

lemma segs48_total : sumValues (speaker_talk_time segs48) = 48 := by
  rw [segs48_talk]
  simp only [sumValues, List.map_map]
  have h : ((List.range 48).map (Prod.snd ∘ fun i => ((toString i : String), (1:ℚ))))
      = (List.range 48).map fun _ => (1:ℚ) :=
    List.map_congr_left (fun i _ => rfl)
  rw [h, List.map_const']
  simp only [List.sum_replicate, List.length_range, nsmul_eq_mul]
  norm_num

lemma segs48_participation_sum :
    sumValues (speaker_participation segs48) = 2496/25 := by
  have hpos : 0 < sumValues (speaker_talk_time segs48) := by
    rw [segs48_total]; norm_num
  have hpart : speaker_participation segs48
      = (speaker_talk_time segs48).map
          fun p => (p.1, round2 (p.2 / sumValues (speaker_talk_time segs48) * 100)) := by
    simp only [speaker_participation, if_pos hpos]
  rw [hpart, segs48_total, sumValues_map_snd, segs48_talk, List.map_map]
  have hval : round2 ((1:ℚ) / 48 * 100) = 52/25 := by
    norm_num [round2, pyRound]
  have hconst : ((List.range 48).map
        ((fun p : String × ℚ => round2 (p.2 / 48 * 100)) ∘ fun i => (toString i, 1)))
      = (List.range 48).map fun _ => (52/25 : ℚ) := by
    apply List.map_congr_left
    intro i _
    simp only [Function.comp_apply]
    exact hval
  rw [hconst, List.map_const']
  simp only [List.sum_replicate, List.length_range, nsmul_eq_mul]
  norm_num

/-- C9: with 48 equal speakers the rounded participation percentages sum to
99.84, outside the ±0.1 tolerance the spec claims (each of the 48 values
incurs a −0.0033 rounding error). The total talk time is 48 > 0, so the
claim's precondition holds. -/
theorem c9_counterexample :
    0 < sumValues (speaker_talk_time segs48) ∧
      ¬ |sumValues (speaker_participation segs48) - 100| ≤ 1/10 := by
  constructor
  · rw [segs48_total]; norm_num
  · rw [segs48_participation_sum]
    rw [show (2496/25 : ℚ) - 100 = -(4/25) by norm_num, abs_neg,
      abs_of_pos (by norm_num : (0:ℚ) < 4/25)]
    norm_num

/-- Key lookup on the talk-time association list (Python dict access). -/
def lookupTalk : List (String × ℚ) → String → Option ℚ
  | [], _ => none
  | (k, v) :: rest, sid => if k = sid then some v else lookupTalk rest sid

lemma lookupTalk_updTalk (acc : List (String × ℚ)) (s sid : String) (d : ℚ) :
    lookupTalk (updTalk acc s d) sid
      = if s = sid then some ((lookupTalk acc sid).getD 0 + d)
        else lookupTalk acc sid := by
  induction acc with
  | nil =>
    by_cases hs : s = sid
    · subst hs
      simp [updTalk, lookupTalk]
    · simp [updTalk, lookupTalk, hs]
  | cons p rest ih =>
    obtain ⟨k, v⟩ := p
    by_cases hk : k = s
    · subst hk
      by_cases hs : k = sid
      · subst hs
        simp [updTalk, lookupTalk]
      · simp [updTalk, lookupTalk, hs]
    · by_cases hs : k = sid
      · subst hs
        have hsne : s ≠ k := fun h => hk h.symm
        simp [updTalk, lookupTalk, hk, hsne]
      · simp [updTalk, lookupTalk, hk, hs, ih]

lemma lookupTalk_foldl (sid : String) (segs : List Seg) :
    ∀ acc : List (String × ℚ),
      lookupTalk
        (segs.foldl (fun acc g => updTalk acc g.speakerId (g.stop - g.start)) acc)
        sid
      = if segs.any (fun g => g.speakerId == sid)
        then some ((lookupTalk acc sid).getD 0
            + ((segs.filter fun g => g.speakerId == sid).map
                fun g => g.stop - g.start).sum)
        else lookupTalk acc sid := by
  induction segs with
  | nil =>
    intro acc
    simp
  | cons g rest ih =>
    intro acc
    simp only [List.foldl_cons, List.any_cons, List.filter_cons]
    by_cases hg : g.speakerId = sid
    · have hbeq : (g.speakerId == sid) = true := beq_iff_eq.mpr hg
      rw [ih (updTalk acc g.speakerId (g.stop - g.start)), lookupTalk_updTalk,
        if_pos hg]
      simp only [hbeq, Bool.true_or, if_true, List.map_cons, List.sum_cons]
      by_cases hrest : rest.any (fun g => g.speakerId == sid) = true
      · rw [if_pos hrest]
        simp only [Option.getD_some]
        congr 1
        ring
      · rw [if_neg hrest]
        have hfil : rest.filter (fun g => g.speakerId == sid) = [] := by
          rw [List.filter_eq_nil]
          intro a ha
          exact (List.any_eq_false.mp (Bool.eq_false_iff.mpr hrest)) a ha
        rw [hfil]
        simp
    · have hbeq : (g.speakerId == sid) = false := beq_eq_false_iff_ne.mpr hg
      rw [ih (updTalk acc g.speakerId (g.stop - g.start)), lookupTalk_updTalk,
        if_neg hg]
      simp only [hbeq, Bool.false_or, Bool.false_eq_true, if_false]

/-- Per-speaker conservation: the accumulated `speaker_talk_time` entry of
each speaker equals the sum of that speaker's segment durations; speakers
with no segment have no entry. -/
lemma speaker_talk_time_per_speaker (segs : List Seg) (sid : String) :
    lookupTalk (speaker_talk_time segs) sid
      = if segs.any (fun g => g.speakerId == sid)
        then some (((segs.filter fun g => g.speakerId == sid).map
            fun g => g.stop - g.start).sum)
        else none := by
  rw [speaker_talk_time, lookupTalk_foldl]
  by_cases hany : segs.any (fun g => g.speakerId == sid) = true
  · rw [if_pos hany, if_pos hany]
    simp [lookupTalk]
  · rw [if_neg hany, if_neg hany]
    rfl

/-- C9 (amended): each speaker's `speaker_talk_time` entry equals the sum of
that speaker's segment durations, so the total of `speaker_talk_time` equals
the total of all segment durations; and whenever the total talk time is
positive, the rounded participation percentages sum to 100 within
±(number of speakers)/200 — hence within ±0.1 only when there are at most 20
speakers, not unconditionally. -/
theorem c9_amended :
    (∀ (segs : List Seg) (sid : String),
        lookupTalk (speaker_talk_time segs) sid
          = if segs.any (fun g => g.speakerId == sid)
            then some (((segs.filter fun g => g.speakerId == sid).map
                fun g => g.stop - g.start).sum)
            else none)
    ∧ (∀ segs : List Seg,
        sumValues (speaker_talk_time segs) = (segs.map fun g => g.stop - g.start).sum)
    ∧ (∀ segs : List Seg, 0 < sumValues (speaker_talk_time segs) →
        |sumValues (speaker_participation segs) - 100|
          ≤ ((speaker_talk_time segs).length : ℚ) / 200) :=
  ⟨speaker_talk_time_per_speaker, speaker_talk_time_sum, participation_sum_bound⟩

/-- Witness for C9 at Scenario D (positive total talk time). -/
theorem c9_amended_witness :
    0 < sumValues (speaker_talk_time scenarioD) ∧
      |sumValues (speaker_participation scenarioD) - 100|
        ≤ ((speaker_talk_time scenarioD).length : ℚ) / 200 :=
  ⟨by rw [talk_time_scenarioD]; norm_num [sumValues],
    c9_amended.2.2 scenarioD (by rw [talk_time_scenarioD]; norm_num [sumValues])⟩

/-! ### C5: per-speaker turn counts of `perform_comprehensive_analysis` -/

/-- Phase 1 of the per-speaker analysis build in
`perform_comprehensive_analysis` (`diarization.py` lines 227-258): an entry
with `turn_count = 0` is created for each distinct speaker, keyed in
first-occurrence order. Only the turn-count field is modelled. -/
def initSpeakerTurnCounts (segs : List Seg) : List (String × ℕ) :=
  segs.foldl
    (fun acc g =>
      if acc.any fun p => p.1 == g.speakerId then acc
      else acc ++ [(g.speakerId, 0)]) []

/-- `speaker_analysis[speaker_id].turn_count += 1` for a present key
(`diarization.py` lines 261-264); absent keys are left untouched, matching
the `if speaker_id in speaker_analysis` guard. -/
def bumpTurn : List (String × ℕ) → String → List (String × ℕ)
  | [], _ => []
  | (k, v) :: rest, sid =>
      if k = sid then (k, v + 1) :: rest else (k, v) :: bumpTurn rest sid

/-- The per-speaker `turn_count` values after the loop of lines 261-264. -/
def speaker_turn_counts (segs : List Seg) : List (String × ℕ) :=
  segs.foldl (fun acc g => bumpTurn acc g.speakerId) (initSpeakerTurnCounts segs)

/-- Key lookup on an association list (Python dict access). -/
def lookupKV : List (String × ℕ) → String → Option ℕ
  | [], _ => none
  | (k, v) :: rest, sid => if k = sid then some v else lookupKV rest sid

/-- Claim-side definition following the spec's glossary: continuation of a
run. Counts segments attributed to `sid` whose predecessor is not `sid`. -/
def specTurnRunsAux (sid : String) : String → List Seg → ℕ
  | _, [] => 0
  | prev, b :: rest =>
      (if b.speakerId = sid ∧ prev ≠ sid then 1 else 0)
        + specTurnRunsAux sid b.speakerId rest

/-- Claim-side definition following the spec's glossary: the number of
maximal contiguous runs of segments attributed to `sid`. -/
def specTurnRuns (sid : String) : List Seg → ℕ
  | [] => 0
  | a :: rest =>
      (if a.speakerId = sid then 1 else 0) + specTurnRunsAux sid a.speakerId rest

/-- Two chronologically adjacent segments of the same speaker. -/
def adjSame : List Seg := [⟨0, 1, "S1", 1⟩, ⟨1, 2, "S1", 1⟩]

/-- C5: for two adjacent segments of the same speaker, the code's
`turn_count` is 2 (one increment per segment) while the spec's maximal-run
count is 1, so `turnCount` is not the number of turns. -/
theorem c5_counterexample :
    lookupKV (speaker_turn_counts adjSame) "S1" = some 2 ∧
    specTurnRuns "S1" adjSame = 1 ∧
    lookupKV (speaker_turn_counts adjSame) "S1"
      ≠ some (specTurnRuns "S1" adjSame) := by
  decide

lemma lookupKV_append_single (acc : List (String × ℕ)) (k sid : String) (v : ℕ) :
    lookupKV (acc ++ [(k, v)]) sid
      = match lookupKV acc sid with
        | some w => some w
        | none => if k = sid then some v else none := by
  induction acc with
  | nil => simp [lookupKV]
  | cons p rest ih =>
    obtain ⟨k', v'⟩ := p
    by_cases h : k' = sid
    · simp [lookupKV, h]
    · simp only [List.cons_append, lookupKV, if_neg h]
      exact ih

lemma lookupKV_isSome_of_any (acc : List (String × ℕ)) (s : String)
    (h : acc.any (fun p => p.1 == s) = true) : ∃ v, lookupKV acc s = some v := by
  induction acc with
  | nil => simp at h
  | cons p rest ih =>
    obtain ⟨k, v⟩ := p
    by_cases hk : k = s
    · exact ⟨v, by simp [lookupKV, hk]⟩
    · simp only [List.any_cons, Bool.or_eq_true, beq_iff_eq] at h
      rcases h with h | h
    
      · exact absurd h hk
      · obtain ⟨w, hw⟩ := ih h
        exact ⟨w, by simp [lookupKV, hk, hw]⟩

lemma lookupKV_init_foldl (sid : String) (segs : List Seg) :
    ∀ acc : List (String × ℕ),
      lookupKV (segs.foldl
        (fun acc g =>
          if acc.any fun p => p.1 == g.speakerId then acc
          else acc ++ [(g.speakerId, 0)]) acc) sid
      = match lookupKV acc sid with
        | some v => some v
        | none =>
            if segs.any (fun g => g.speakerId == sid) then some 0 else none := by
  induction segs with
  | nil =>
    intro acc
    simp only [List.foldl_nil, List.any_nil, Bool.false_eq_true, if_false]
    cases lookupKV acc sid <;> rfl
  | cons g rest ih =>
    intro acc
    simp only [List.foldl_cons, List.any_cons]
    by_cases hany : (acc.any fun p => p.1 == g.speakerId) = true
    · rw [if_pos hany, ih acc]
      cases hcase : lookupKV acc sid with
      | some v => rfl
      | none =>
        obtain ⟨w, hw⟩ := lookupKV_isSome_of_any acc g.speakerId hany
        have hne : g.speakerId ≠ sid := by
          intro hcontra
          rw [hcontra] at hw
          rw [hw] at hcase
          exact Option.noConfusion hcase
        simp [hne]
    · rw [if_neg hany, ih (acc ++ [(g.speakerId, 0)]),
        lookupKV_append_single]
      cases hcase : lookupKV acc sid with
      | some v => rfl
      | none =>
        by_cases hgs : g.speakerId = sid
        · simp [hgs]
        · simp [hgs]
  
lemma lookupKV_bumpTurn (acc : List (String × ℕ)) (s sid : String) :
    lookupKV (bumpTurn acc s) sid
      = if s = sid then (lookupKV acc sid).map (· + 1) else lookupKV acc sid := by
  induction acc with
  | nil => cases hss : decide (s = sid) <;> simp [bumpTurn, lookupKV]
  | cons p rest ih =>
    obtain ⟨k, v⟩ := p
    by_cases hk : k = s
    · subst hk
      by_cases hs : k = sid
      · simp [bumpTurn, lookupKV, hs]
      · simp [bumpTurn, lookupKV, hs, if_neg hs]
    · by_cases hs : k = sid
      · subst hs
        have hne : s ≠ k := fun hcontra => hk hcontra.symm
        simp [bumpTurn, lookupKV, hk, hne]
      · simp only [bumpTurn, if_neg hk, lookupKV, if_neg hs]
        exact ih

lemma lookupKV_bump_foldl (sid : String) (segs : List Seg) :
    ∀ acc : List (String × ℕ),
      lookupKV (segs.foldl (fun acc g => bumpTurn acc g.speakerId) acc) sid
        = (lookupKV acc sid).map
            (· + segs.countP (fun g => g.speakerId == sid)) := by
  induction segs with
  | nil =>
    intro acc
    simp only [List.foldl_nil, List.countP_nil]
    cases lookupKV acc sid <;> simp
  | cons g rest ih =>
    intro acc
    simp only [List.foldl_cons, List.countP_cons]
    rw [ih (bumpTurn acc g.speakerId), lookupKV_bumpTurn]
    by_cases hgs : g.speakerId = sid
    · rw [if_pos hgs]
      cases lookupKV acc sid with
      | none => simp
      | some v =>
        simp [hgs]
        omega
    · rw [if_neg hgs]
      have : (g.speakerId == sid) = false := beq_eq_false_iff_ne.mpr hgs
      rw [this]
      cases lookupKV acc sid <;> simp

/-- C5 (amended): for every segment list and speaker, the per-speaker
`turn_count` computed by `perform_comprehensive_analysis` equals the number
of segments attributed to that speaker (each segment counts once, so
adjacent same-speaker segments are counted separately); speakers absent from
the list have no entry. -/
theorem c5_amended (segs : List Seg) (sid : String) :
    lookupKV (speaker_turn_counts segs) sid
      = if segs.any (fun g => g.speakerId == sid)
        then some (segs.countP (fun g => g.speakerId == sid))
        else none := by
  rw [speaker_turn_counts, lookupKV_bump_foldl, initSpeakerTurnCounts,
    lookupKV_init_foldl]
  simp only [lookupKV]
  by_cases hany : (segs.any fun g => g.speakerId == sid) = true
  · simp [hany]
  · simp [hany]

/-! ### C4: temporary-file cleanup in `analyze_audio_task`
(`diarization.py` lines 360-417) -/

/-- Outcome environment for one run of `analyze_audio_task`: whether each
fallible stage succeeds. `perform_diarization` and
`calculate_engagement_metrics` cannot raise at task level (the former
catches all exceptions internally and falls back to mock segments), so only
`load_audio`, `perform_comprehensive_analysis` and `save_analysis_to_db`
appear. -/
structure TaskEnv where
  loadOk : Bool
  comprehensiveOk : Bool
  saveOk : Bool
  deriving DecidableEq, Repr

/-- Result status of the Celery task. -/
inductive TaskStatus where
  | success
  | failure
  deriving DecidableEq, Repr

/-- Observable outcome of one task run: its status, and whether the uploaded
temporary file at `file_path` was deleted. -/
structure TaskRun where
  status : TaskStatus
  fileDeleted : Bool
  deriving DecidableEq, Repr

/-- Control flow of `analyze_audio_task` (`diarization.py` lines 360-417):
the `os.remove(file_path)` call at line 403 sits on the success path after
`save_analysis_to_db`; the `except` clause (lines 414-417) closes the
MongoDB connection and re-raises without removing the file. -/
def analyze_audio_task (env : TaskEnv) : TaskRun :=
  if !env.loadOk then ⟨.failure, false⟩
  else if !env.comprehensiveOk then ⟨.failure, false⟩
  else if !env.saveOk then ⟨.failure, false⟩
  else ⟨.success, true⟩

/-- C4: a run in which `save_analysis_to_db` raises (e.g. the MongoDB insert
fails) ends in failure with the temporary audio file still on disk: cleanup
is not guaranteed on the failure exit path. -/
theorem c4_counterexample :
    (analyze_audio_task ⟨true, true, false⟩).status = .failure ∧
      (analyze_audio_task ⟨true, true, false⟩).fileDeleted = false := by
  decide

/-- C4 (amended): the uploaded temporary file is deleted exactly when the
task succeeds; on every failure path the `except` clause re-raises without
deleting it. -/
theorem c4_amended (env : TaskEnv) :
    (analyze_audio_task env).fileDeleted = true
      ↔ (analyze_audio_task env).status = .success := by
  obtain ⟨l, c, s⟩ := env
  cases l <;> cases c <;> cases s <;> decide

/-! ## `detect_silence_in_segment` (`app/tasks/silence_detection.py`, lines 26-142)

The mel-spectrogram energy thresholding (lines 64-71) is floating-point DSP
over the waveform; it is abstracted as the boolean frame classification
`frames` it produces (`silence_frames`). One mel frame exists per hop of 512
samples (plus one), so a nonempty waveform slice yields a nonempty frame
list; the empty slice early-return (lines 51-59) corresponds to `frames = []`.
Frame times follow `librosa.frames_to_time` with the default hop of 512:
frame `i` starts at `512 * i / sr` seconds relative to the window start. -/

/-- `librosa.frames_to_time(i, sr)` with the default hop length 512. -/
def frameTime (sr : ℚ) (i : ℕ) : ℚ := 512 * i / sr

/-- A retained silence interval (`silence_segments` entry, unrounded). -/
structure SilInterval where
  start : ℚ
  stop : ℚ
  duration : ℚ
  deriving DecidableEq, Repr

/-- The frame loop of lines 82-99: group consecutive silent frames; when a
run ends at a non-silent frame `i`, retain the candidate interval iff its
duration `frame_times[i-1] - run_start + frame_duration` reaches
`min_duration`. Returns the retained intervals plus the still-open run
start. `i` is the index of the first frame of `frames` in the whole window;
`cur` is `current_silence_start`. -/
def silScan (sr fd minDur segStart : ℚ) :
    List Bool → ℕ → Option ℚ → List SilInterval × Option ℚ
  | [], _, cur => ([], cur)
  | b :: rest, i, cur =>
    if b then
      silScan sr fd minDur segStart rest (i+1) (some (cur.getD (frameTime sr i)))
    else
      match cur with
      | none => silScan sr fd minDur segStart rest (i+1) none
      | some c =>
        let d := frameTime sr (i-1) - c + fd
        let res := silScan sr fd minDur segStart rest (i+1) none
        (if minDur ≤ d then
            ⟨c + segStart, frameTime sr (i-1) + segStart + fd, d⟩ :: res.1
          else res.1,
          res.2)

/-- The retained silence intervals of lines 78-110 (before the output
rounding of lines 124-131): the scan plus the end-of-window close-out, whose
interval ends at `segment_end` but keeps the frame-grid duration
`frame_times[-1] - run_start + frame_duration`. `frame_duration` is
`frame_times[1] - frame_times[0]` when there are at least two frames, else
the fallback `0.02` (line 75). -/
def detect_silence_segments (frames : List Bool) (sr segStart segEnd : ℚ) :
    List SilInterval :=
  let fd := if 1 < frames.length then 512 / sr else 1/50
  let res := silScan sr fd (3/10) segStart frames 0 none
  match res.2 with
  | none => res.1
  | some c =>
      let d := frameTime sr (frames.length - 1) - c + fd
      if (3/10) ≤ d then res.1 ++ [⟨c + segStart, segEnd, d⟩] else res.1

/-- The statistics dictionary returned by `detect_silence_in_segment`
(lines 112-132), with the two-decimal output rounding of lines 118-131. -/
structure SilenceResult where
  total_silence_duration : ℚ
  silence_percentage : ℚ
  pause_count : ℕ
  average_pause_duration : ℚ
  longest_pause : ℚ
  silence_segments : List SilInterval
  deriving DecidableEq, Repr

/-- `detect_silence_in_segment`: the empty slice yields the all-zero result
(lines 51-59); otherwise statistics over the retained intervals, with the
divisions guarded by `segment_duration > 0` and `pause_count > 0`
(lines 113-116). -/
def detect_silence_in_segment (frames : List Bool) (sr segStart segEnd : ℚ) :
    SilenceResult :=
  if frames.isEmpty then ⟨0, 0, 0, 0, 0, []⟩
  else
    let ivs := detect_silence_segments frames sr segStart segEnd
    let total := (ivs.map SilInterval.duration).sum
    let segd := segEnd - segStart
    let pct := if 0 < segd then total / segd * 100 else 0
    let avg := if 0 < ivs.length then total / ivs.length else 0
    let longest := if ivs.isEmpty then 0 else listMax (ivs.map SilInterval.duration)
    ⟨round2 total, round2 pct, ivs.length, round2 avg, round2 longest,
      ivs.map fun iv => ⟨round2 iv.start, round2 iv.stop, round2 iv.duration⟩⟩

/-- C3: a fully-silent 0.3 s window ([0, 0.3] at 16 kHz: 4800 samples, hence
10 mel frames) is closed out at the window boundary: the retained interval is
(start 0, end 0.3) but its recorded duration is the frame-grid value
0.32 = 10·512/16000, so duration ≠ end − start (and the duration even
exceeds the window). -/
theorem c3_counterexample :
    detect_silence_segments (List.replicate 10 true) 16000 0 (3/10)
        = [⟨0, 3/10, 8/25⟩] ∧
      ¬ ((8:ℚ)/25 = 3/10 - 0) := by
  constructor
  · have hscan : ∀ fd : ℚ,
        silScan 16000 fd (3/10) 0 (List.replicate 10 true) 0 none
          = ([], some (frameTime 16000 0)) := by
      intro fd
      simp [silScan, List.replicate]
    simp only [detect_silence_segments, List.length_replicate, hscan]
    norm_num [frameTime]
  · norm_num

lemma frameTime_nonneg (sr : ℚ) (hsr : 0 < sr) (i : ℕ) : 0 ≤ frameTime sr i := by
  unfold frameTime
  positivity

lemma frameTime_mono (sr : ℚ) (hsr : 0 < sr) {i j : ℕ} (h : i ≤ j) :
    frameTime sr i ≤ frameTime sr j := by
  unfold frameTime
  gcongr 512 * ?_ / sr
  exact Nat.cast_le.mpr h

lemma frameTime_pred_add (sr : ℚ) (hsr : 0 < sr) {i : ℕ} (hi : 1 ≤ i) :
    frameTime sr (i-1) + 512/sr = frameTime sr i := by
  unfold frameTime
  rw [Nat.cast_sub hi]
  push_cast
  field_simp
  ring

lemma silScan_spec (sr minDur segStart : ℚ) (hsr : 0 < sr) :
    ∀ (frames : List Bool) (i : ℕ) (cur : Option ℚ),
      (∀ c, cur = some c → 0 ≤ c ∧ 1 ≤ i) →
      (∀ iv ∈ (silScan sr (512/sr) minDur segStart frames i cur).1,
          minDur ≤ iv.duration ∧ segStart ≤ iv.start
            ∧ iv.duration = iv.stop - iv.start
            ∧ iv.stop ≤ segStart + frameTime sr (i + frames.length - 1))
      ∧ (∀ c, (silScan sr (512/sr) minDur segStart frames i cur).2 = some c → 0 ≤ c) := by
  intro frames
  induction frames with
  | nil =>
    intro i cur hcur
    refine ⟨?_, ?_⟩
    · intro iv hiv
      simp [silScan] at hiv
    · intro c hc
      simp only [silScan] at hc
      exact (hcur c hc).1
  | cons b rest ih =>
    intro i cur hcur
    cases b with
    | true =>
      simp only [silScan, if_true]
      have hcur' : ∀ c, (some (cur.getD (frameTime sr i)) : Option ℚ) = some c →
          0 ≤ c ∧ 1 ≤ i + 1 := by
        intro c hc
        have hc' : cur.getD (frameTime sr i) = c := by
          simpa using hc
        cases hcase : cur with
        | none =>
          rw [hcase] at hc'
          simp only [Option.getD_none] at hc'
          exact ⟨hc' ▸ frameTime_nonneg sr hsr i, Nat.le_add_left 1 i⟩
        | some c0 =>
          rw [hcase] at hc'
          simp only [Option.getD_some] at hc'
          exact ⟨hc' ▸ (hcur c0 hcase).1, Nat.le_add_left 1 i⟩
      have h := ih (i+1) (some (cur.getD (frameTime sr i))) hcur'
      refine ⟨?_, h.2⟩
      intro iv hiv
      obtain ⟨h1, h2, h3, h4⟩ := h.1 iv hiv
      refine ⟨h1, h2, h3, ?_⟩
      have hidx : i + 1 + rest.length - 1 = i + (rest.length + 1) - 1 := by omega
      rw [hidx] at h4
      simpa [List.length_cons] using h4
    | false =>
      cases hcase : cur with
      | none =>
        simp only [silScan, Bool.false_eq_true, if_false]
        have h := ih (i+1) none (by simp)
        refine ⟨?_, h.2⟩
        intro iv hiv
        obtain ⟨h1, h2, h3, h4⟩ := h.1 iv hiv
        refine ⟨h1, h2, h3, ?_⟩
        have hidx : i + 1 + rest.length - 1 = i + (rest.length + 1) - 1 := by omega
        rw [hidx] at h4
        simpa [List.length_cons] using h4
      | some c =>
        obtain ⟨hc0, hi1⟩ := hcur c hcase
        simp only [silScan, Bool.false_eq_true, if_false]
        have hres := ih (i+1) none (by simp)
        refine ⟨?_, ?_⟩
        · intro iv hiv
          simp only [List.length_cons]
          have hidx : i + (rest.length + 1) - 1 = i + rest.length := by omega
          rw [hidx]
          by_cases hd : minDur ≤ frameTime sr (i-1) - c + 512/sr
          · rw [if_pos hd] at hiv
            rcases List.mem_cons.mp hiv with hiv | hiv
            · subst hiv
              refine ⟨hd, by linarith, by ring, ?_⟩
              have hfi : frameTime sr (i-1) + 512/sr = frameTime sr i :=
                frameTime_pred_add sr hsr hi1
              have hmono : frameTime sr i ≤ frameTime sr (i + rest.length) :=
                frameTime_mono sr hsr (Nat.le_add_right i rest.length)
              simp only []
              linarith
            · obtain ⟨h1, h2, h3, h4⟩ := hres.1 iv hiv
              refine ⟨h1, h2, h3, ?_⟩
              have hidx2 : i + 1 + rest.length - 1 = i + rest.length := by omega
              rw [hidx2] at h4
              exact h4
          · rw [if_neg hd] at hiv
            obtain ⟨h1, h2, h3, h4⟩ := hres.1 iv hiv
            refine ⟨h1, h2, h3, ?_⟩
            have hidx2 : i + 1 + rest.length - 1 = i + rest.length := by omega
            rw [hidx2] at h4
            exact h4
        · intro c' hc'
          exact hres.2 c' hc'

/-- C3 (amended): under the real frame-count bound
`(frames-1)·512 ≤ windowDuration·sr`, every retained silence interval has
duration ≥ 0.3, starts no earlier than `segmentStart`, ends no later than
`segmentEnd`, and either satisfies duration = end − start (interior
intervals) or is the end-of-window interval, whose end is clamped to
`segmentEnd` while its duration keeps the frame-grid value — so
duration = end − start does not hold for it in general. -/
theorem c3_amended (frames : List Bool) (sr segStart segEnd : ℚ)
    (hsr : 0 < sr)
    (hbound : ((frames.length - 1 : ℕ) : ℚ) * 512 ≤ (segEnd - segStart) * sr) :
    ∀ iv ∈ detect_silence_segments frames sr segStart segEnd,
      3/10 ≤ iv.duration ∧ segStart ≤ iv.start ∧ iv.stop ≤ segEnd
        ∧ (iv.duration = iv.stop - iv.start ∨ iv.stop = segEnd) := by
  intro iv hiv
  by_cases hlen : 1 < frames.length
  · simp only [detect_silence_segments, if_pos hlen] at hiv
    have hspec := silScan_spec sr (3/10) segStart hsr frames 0 none (by simp)
    have hft : frameTime sr (frames.length - 1) ≤ segEnd - segStart := by
      unfold frameTime
      rw [div_le_iff hsr]
      calc (512:ℚ) * ((frames.length - 1 : ℕ):ℚ)
          = ((frames.length - 1 : ℕ):ℚ) * 512 := by ring
        _ ≤ (segEnd - segStart) * sr := hbound
    have hinterior : ∀ jv ∈ (silScan sr (512/sr) (3/10) segStart frames 0 none).1,
        3/10 ≤ jv.duration ∧ segStart ≤ jv.start ∧ jv.stop ≤ segEnd
          ∧ (jv.duration = jv.stop - jv.start ∨ jv.stop = segEnd) := by
      intro jv hjv
      obtain ⟨h1, h2, h3, h4⟩ := hspec.1 jv hjv
      rw [Nat.zero_add] at h4
      exact ⟨h1, h2, by linarith, Or.inl h3⟩
    split at hiv
    · exact hinterior iv hiv
    · rename_i c heq
      split at hiv
      · rcases List.mem_append.mp hiv with hmem | hmem
        · exact hinterior iv hmem
        · simp only [List.mem_singleton] at hmem
          subst hmem
          have hc0 : 0 ≤ c := hspec.2 c heq
          rename_i hd
          exact ⟨hd, by simpa using hc0, le_refl _, Or.inr rfl⟩
      · exact hinterior iv hiv
  · have hempty : detect_silence_segments frames sr segStart segEnd = [] := by
      cases frames with
      | nil => simp [detect_silence_segments, silScan]
      | cons b rest =>
        have hrest : rest = [] := by
          cases rest with
          | nil => rfl
          | cons x xs =>
            exact absurd (by simp only [List.length_cons]; omega) hlen
        subst hrest
        cases b with
        | false => simp [detect_silence_segments, silScan]
        | true =>
          simp only [detect_silence_segments, silScan, List.length_cons,
            List.length_nil]
          norm_num [frameTime]
    rw [hempty] at hiv
    simp at hiv

/-- Witness for C3 at a fully-silent 10-frame window [0, 0.3] at 16 kHz. -/
theorem c3_amended_witness :
    (0:ℚ) < 16000 ∧
    (((List.replicate 10 true).length - 1 : ℕ) : ℚ) * 512 ≤ ((3:ℚ)/10 - 0) * 16000 ∧
    (∀ iv ∈ detect_silence_segments (List.replicate 10 true) 16000 0 (3/10),
      3/10 ≤ iv.duration ∧ (0:ℚ) ≤ iv.start ∧ iv.stop ≤ 3/10
        ∧ (iv.duration = iv.stop - iv.start ∨ iv.stop = 3/10)) :=
  ⟨by norm_num,
   by simp only [List.length_replicate]; norm_num,
   c3_amended (List.replicate 10 true) 16000 0 (3/10) (by norm_num)
     (by simp only [List.length_replicate]; norm_num)⟩

/-! ## `detect_fillers_from_transcript` (`app/tasks/filler_detection.py`,
lines 38-74)

The regular-expression engine (`re.findall`, line 59) is external; it is
abstracted as a `matcher` parameter giving the number of matches of a
pattern in a text. Everything downstream of the match counts is embedded. -/

/-- The `FILLER_PATTERNS` table of `filler_detection.py` lines 17-33. -/
def FILLER_PATTERNS : List (String × String) :=
  [("um", "\\bum\\b|\\bumm\\b|\\bhmm\\b"),
   ("uh", "\\buh\\b|\\buuh\\b|\\bahh\\b|\\baah\\b"),
   ("er", "\\ber\\b|\\berr\\b"),
   ("ah", "\\bah\\b"),
   ("oh", "\\boh\\b|\\booh\\b"),
   ("mmm", "\\bmmm\\b|\\bmm\\b|\\bmhm\\b"),
   ("like", "\\blike\\b"),
   ("you_know", "\\byou know\\b"),
   ("i_mean", "\\bi mean\\b"),
   ("basically", "\\bbasically\\b"),
   ("actually", "\\bactually\\b"),
   ("literally", "\\bliterally\\b"),
   ("right", "\\bright\\b"),
   ("so", "\\bso\\b"),
   ("yeah", "\\byeah\\b|\\byeaah\\b")]

/-- Python `str.split()` with no argument: whitespace-separated tokens,
empty tokens dropped. -/
def pySplit (s : String) : List String :=
  ((s.toList.splitOnP Char.isWhitespace).map fun l => (⟨l⟩ : String)).filter
    fun w => ¬ w.isEmpty

/-- Python `str.lower()`. -/
def pyLower (s : String) : String := ⟨s.toList.map Char.toLower⟩

/-- `word_count = len(transcript.split())`, line 64. -/
def wordCount (s : String) : ℕ := (pySplit s).length

/-- The per-speaker filler analysis dictionary of lines 67-74. -/
structure FillerResult where
  speaker_id : String
  filler_counts : List (String × ℕ)
  total_fillers : ℕ
  word_count : ℕ
  filler_ratio : ℚ
  deriving DecidableEq, Repr

/-- `detect_fillers_from_transcript` (lines 38-74): count matches of each
filler pattern in the lower-cased transcript (keeping only categories with
at least one match), then `filler_ratio = total/word_count*100` guarded by
`word_count > 0`, rounded to two decimals. -/
def detect_fillers_from_transcript (matcher : String → String → ℕ)
    (transcript speaker_id : String) : FillerResult :=
  let textLower := pyLower transcript
  let filler_counts :=
    (FILLER_PATTERNS.map fun p => (p.1, matcher p.2 textLower)).filter
      fun p => 0 < p.2
  let total_fillers := (filler_counts.map Prod.snd).sum
  let wc := wordCount transcript
  let filler_ratio :=
    if 0 < wc then round2 ((total_fillers : ℚ) / wc * 100) else 0
  ⟨speaker_id, filler_counts, total_fillers, wc, filler_ratio⟩

/-! ## `analyze_speaker_sentiment` (`app/tasks/sentiment_analysis.py`,
lines 52-188)

TextBlob's polarity/subjectivity scorer (line 79-81) is an external model;
it is abstracted as the `blob` parameter. The indicator lexicons and all
control flow are embedded. The blank-transcript early return (lines 67-75)
yields a dictionary whose `emotions` value is the empty dict (no dominant
emotion) and which has no `engagement_from_sentiment` key at all; both are
modelled as `none`. -/

/-- Python `needle in hay` substring test. -/
def containsSub (needle hay : String) : Bool :=
  hay.toList.tails.any fun t => needle.toList.isPrefixOf t

/-- Python `str.strip()`: remove leading and trailing whitespace. -/
def pyStrip (s : String) : String :=
  ⟨((s.toList.dropWhile Char.isWhitespace).reverse.dropWhile
      Char.isWhitespace).reverse⟩

/-- `POSITIVE_INDICATORS` (lines 17-22; the duplicated `brilliant` key of the
source dict literal collapses to one entry, as in Python). -/
def POSITIVE_INDICATORS : List (String × ℚ) :=
  [("great", 2), ("excellent", 2), ("amazing", 2), ("wonderful", 2),
   ("fantastic", 2), ("love", 3/2), ("good", 1), ("nice", 1), ("happy", 3/2),
   ("glad", 3/2), ("brilliant", 2), ("awesome", 2), ("perfect", 3/2),
   ("interesting", 1/2), ("cool", 1), ("fun", 1), ("enjoy", 3/2)]

/-- `NEGATIVE_INDICATORS` (lines 24-28). -/
def NEGATIVE_INDICATORS : List (String × ℚ) :=
  [("terrible", -2), ("awful", -2), ("horrible", -2), ("hate", -2),
   ("bad", -1), ("poor", -1), ("wrong", -1), ("sad", -3/2), ("angry", -3/2),
   ("frustrated", -3/2), ("difficult", -1/2), ("hard", -1/2),
   ("problem", -1/2), ("issue", -1/2), ("concerned", -1/2)]

/-- `ENGAGEMENT_INDICATORS` (lines 31-34). -/
def ENGAGEMENT_INDICATORS : List (String × ℚ) :=
  [("agree", 1), ("absolutely", 1), ("definitely", 1), ("exactly", 1),
   ("right", 1/2), ("understand", 1/2), ("know", 1/2), ("think", 1/2),
   ("believe", 1/2), ("feel", 1/2)]

/-- `DISENGAGEMENT_INDICATORS` (lines 36-39). -/
def DISENGAGEMENT_INDICATORS : List (String × ℚ) :=
  [("whatever", -1), ("dunno", -1/2), ("maybe", -1/2), ("probably", -1/2),
   ("guess", -1/2), ("not sure", -1/2), ("confused", -1), ("lost", -1)]

/-- Sum of the scores of the lexicon entries present in the text. -/
def indicatorSum (table : List (String × ℚ)) (textLower : String) : ℚ :=
  ((table.filter fun p => containsSub p.1 textLower).map Prod.snd).sum

/-- The `emotions` dictionary built by `_detect_emotions` (lines 121-160). -/
structure Emotions where
  dominant : String
  intensity : ℚ
  positive_indicators : ℚ
  negative_indicators : ℚ
  deriving DecidableEq, Repr

/-- `_detect_emotions` (lines 121-160). -/
def detect_emotions (transcript : String) : Emotions :=
  let tl := pyLower transcript
  let pos := indicatorSum POSITIVE_INDICATORS tl
  let neg := indicatorSum NEGATIVE_INDICATORS tl
  if |neg| < pos then ⟨"positive", min (pos/5) 1, pos, neg⟩
  else if neg < -1 * pos then ⟨"negative", min (|neg|/5) 1, pos, neg⟩
  else ⟨"neutral", 1/2, pos, neg⟩

/-- `_calculate_sentiment_engagement` (lines 162-188): engagement minus
disengagement magnitudes, scaled by 10 and clamped to [0, 100]. -/
def calculate_sentiment_engagement (transcript : String) : ℚ :=
  let tl := pyLower transcript
  let e := indicatorSum ENGAGEMENT_INDICATORS tl
    - ((DISENGAGEMENT_INDICATORS.filter fun p => containsSub p.1 tl).map
        fun p => |p.2|).sum
  max 0 (min 100 (e * 10))

/-- The per-speaker sentiment dictionary of `analyze_speaker_sentiment`.
`emotions = none` models the empty `emotions` dict (no dominant entry);
`engagement_from_sentiment = none` models the key being absent. -/
structure SentimentResult where
  speaker_id : String
  polarity : ℚ
  subjectivity : ℚ
  sentiment_label : String
  confidence : ℚ
  emotions : Option Emotions
  engagement_from_sentiment : Option ℚ
  deriving DecidableEq, Repr

/-- `analyze_speaker_sentiment` (lines 52-108): the blank-transcript branch
(lines 67-75) returns polarity 0, subjectivity 0, label `neutral`,
confidence 0, an empty emotions dict and no engagement key; otherwise the
TextBlob scores are labelled and the emotion/engagement analyses run. -/
def analyze_speaker_sentiment (blob : String → ℚ × ℚ)
    (transcript speaker_id : String) : SentimentResult :=
  if pyStrip transcript = "" then
    ⟨speaker_id, 0, 0, "neutral", 0, none, none⟩
  else
    let polarity := (blob transcript).1
    let subjectivity := (blob transcript).2
    let lc :=
      if 1/10 < polarity then ("positive", min polarity 1)
      else if polarity < -(1/10) then ("negative", min |polarity| 1)
      else ("neutral", (1:ℚ)/2)
    ⟨speaker_id, round2 polarity, round2 subjectivity, lc.1, round2 lc.2,
      some (detect_emotions transcript),
      some (round2 (calculate_sentiment_engagement transcript))⟩

/-- C7: on the empty transcript the returned dictionary has an empty
`emotions` dict and no `engagement_from_sentiment` key at all (and
confidence 0, not the 0.5 the neutral labelling rule gives), so it does not
contain every contract output field. -/
theorem c7_counterexample :
    (analyze_speaker_sentiment (fun _ => (0, 0)) "" "S1").engagement_from_sentiment
        = none ∧
      (analyze_speaker_sentiment (fun _ => (0, 0)) "" "S1").emotions = none := by
  constructor <;> decide

/-- C7 (amended): for every blank transcript (empty after stripping), the
analyzer returns, without raising, polarity 0, subjectivity 0, label
`neutral`, confidence 0, an empty emotions mapping and no
engagement-from-sentiment field; readers that default the two missing
fields obtain 0 and `neutral`. -/
theorem c7_amended (blob : String → ℚ × ℚ) (t sid : String)
    (h : pyStrip t = "") :
    analyze_speaker_sentiment blob t sid = ⟨sid, 0, 0, "neutral", 0, none, none⟩ := by
  simp [analyze_speaker_sentiment, h]

/-- Witness for C7 at a whitespace-only transcript. -/
theorem c7_amended_witness :
    pyStrip "  " = "" ∧
      analyze_speaker_sentiment (fun _ => (0, 0)) "  " "S1"
        = ⟨"S1", 0, 0, "neutral", 0, none, none⟩ :=
  ⟨by decide, c7_amended (fun _ => (0, 0)) "  " "S1" (by decide)⟩

/-! ## `match_transcript_to_speakers` (`app/tasks/speech_to_text.py`,
lines 66-143) -/

/-- A Whisper transcript segment: `{start, end, text}`. -/
structure TransSeg where
  start : ℚ
  stop : ℚ
  text : String
  deriving DecidableEq, Repr

/-- One entry of the matched-segments output (lines 134-141). -/
structure MatchedSeg where
  speaker_id : String
  start : ℚ
  stop : ℚ
  duration : ℚ
  transcript : String
  word_count : ℕ
  deriving DecidableEq, Repr

/-- The matching loop of lines 95-111: walk the transcript stream in order,
keeping the stripped text of each segment that overlaps the speaker segment,
exceeds 50% overlap of the speaker duration (0 when the duration is not
positive) and has nonempty stripped text. -/
def collectMatching (spk : Seg) : List TransSeg → List String
  | [] => []
  | t :: rest =>
      let os := max spk.start t.start
      let oe := min spk.stop t.stop
      let pct :=
        if 0 < spk.stop - spk.start then (oe - os) / (spk.stop - spk.start) * 100
        else 0
      if os < oe then
        if 50 < pct ∧ pyStrip t.text ≠ "" then
          pyStrip t.text :: collectMatching spk rest
        else collectMatching spk rest
      else collectMatching spk rest

/-- `distance < closest_dist` with `closest_dist` starting at `float('inf')`
(line 118), the absent distance modelled as `none`. -/
def distLt (d : ℚ) : Option ℚ → Bool
  | none => true
  | some cd => decide (d < cd)

/-- The fallback loop of lines 117-132: the stripped text of the transcript
segment whose start is strictly closer than every earlier one (so ties keep
the first occurrence). -/
def closestLoop (s : ℚ) : List TransSeg → Option ℚ → String → String
  | [], _, best => best
  | t :: rest, curDist, best =>
      if distLt (|s - t.start|) curDist then
        closestLoop s rest (some (|s - t.start|)) (pyStrip t.text)
      else closestLoop s rest curDist best

/-- `closest_text` of the fallback (initial distance infinite, initial text
empty). -/
def closest_text (tsegs : List TransSeg) (s : ℚ) : String :=
  closestLoop s tsegs none ""

/-- The per-speaker-segment body of `match_transcript_to_speakers`
(lines 85-141): join the matching stripped texts with single spaces, or fall
back to the closest segment's stripped text; `word_count` counts
whitespace-separated tokens. -/
def match_one (tsegs : List TransSeg) (spk : Seg) : MatchedSeg :=
  let texts := collectMatching spk tsegs
  let full_text :=
    if texts.isEmpty then closest_text tsegs spk.start
    else String.intercalate " " texts
  ⟨spk.speakerId, spk.start, spk.stop, spk.stop - spk.start, full_text,
    wordCount full_text⟩

/-- `match_transcript_to_speakers`: one matched entry per speaker segment. -/
def match_transcript_to_speakers (tsegs : List TransSeg) (spks : List Seg) :
    List MatchedSeg :=
  spks.map (match_one tsegs)

/-- Claim-side definition following the claim's words: the transcript
segments whose overlap duration exceeds 50% of the speaker segment's
duration. -/
def specOverThreshold (tsegs : List TransSeg) (spk : Seg) : List TransSeg :=
  tsegs.filter fun t =>
    decide (0 < spk.stop - spk.start ∧
      50 < (min spk.stop t.stop - max spk.start t.start)
              / (spk.stop - spk.start) * 100)

/-- Claim-side definition following the claim's words: stable insertion
into a start-sorted list (chronological order). -/
def insertTrans (t : TransSeg) : List TransSeg → List TransSeg
  | [] => [t]
  | u :: rest =>
      if t.start ≤ u.start then t :: u :: rest else u :: insertTrans t rest

/-- Claim-side definition: chronological (stable) sort of transcript
segments by start time. -/
def sortTransByStart (l : List TransSeg) : List TransSeg :=
  l.foldr insertTrans []

/-- Claim-side definition following the claim's words: the first-occurrence
argmin of start-time distance, raw text. -/
def specClosestText (tsegs : List TransSeg) (s : ℚ) : String :=
  match tsegs with
  | [] => ""
  | t :: rest =>
      (rest.foldl
        (fun best u => if |s - u.start| < |s - best.start| then u else best)
        t).text

/-- Claim-side definition following the claim's words: the aligned
transcript (single-space join in chronological order of the texts of all
over-threshold segments, else the closest segment's text) and its word
count. -/
def specAligned (tsegs : List TransSeg) (spk : Seg) : String × ℕ :=
  let over := specOverThreshold tsegs spk
  let text :=
    if over.isEmpty then specClosestText tsegs spk.start
    else String.intercalate " " ((sortTransByStart over).map TransSeg.text)
  (text, wordCount text)

/-- A sorted transcript stream whose only over-threshold segment is
whitespace, while a low-overlap segment sits closest to the speaker start. -/
def exTSegs : List TransSeg := [⟨0, 2/5, "C"⟩, ⟨1, 10, " "⟩]

/-- The speaker segment for the C6 counterexample. -/
def exSpk : Seg := ⟨0, 10, "S1", 1⟩

/-- C6: on `exTSegs` the whitespace segment exceeds 50% overlap, so the
claim prescribes the aligned transcript " " with word count 0; the code
skips blank texts, finds no match, and falls back to the closest segment,
returning "C" with word count 1. -/
theorem c6_counterexample :
    (match_one exTSegs exSpk).transcript = "C" ∧
    (match_one exTSegs exSpk).word_count = 1 ∧
    specAligned exTSegs exSpk = (" ", 0) ∧
    (match_one exTSegs exSpk).transcript ≠ (specAligned exTSegs exSpk).1 := by
  have hcollect : collectMatching exSpk exTSegs = [] := by
    norm_num [collectMatching, exTSegs, exSpk,
      show pyStrip " " = "" from by decide]
  have hclosest : closest_text exTSegs 0 = "C" := by
    norm_num [closest_text, closestLoop, exTSegs, distLt,
      show pyStrip "C" = "C" from by decide]
  have hover : specOverThreshold exTSegs exSpk = [⟨1, 10, " "⟩] := by
    norm_num [specOverThreshold, exTSegs, exSpk]
  have hmatch : match_one exTSegs exSpk
      = ⟨"S1", 0, 10, 10, "C", 1⟩ := by
    simp only [match_one, hcollect, List.isEmpty_nil, if_pos]
    norm_num [exSpk, hclosest]
    decide
  have hspec : specAligned exTSegs exSpk = (" ", 0) := by
    simp only [specAligned, hover]
    norm_num [sortTransByStart, insertTrans, List.foldr]
    decide
  refine ⟨by rw [hmatch], by rw [hmatch], hspec, ?_⟩
  rw [hmatch, hspec]
  decide

/-- The acceptance condition of the matching loop as a predicate: positive
overlap, strictly more than 50% of the speaker duration, nonblank text. -/
def overlapAccept (spk : Seg) (t : TransSeg) : Bool :=
  decide (max spk.start t.start < min spk.stop t.stop
    ∧ 50 < (if 0 < spk.stop - spk.start then
        (min spk.stop t.stop - max spk.start t.start)
          / (spk.stop - spk.start) * 100
      else 0)
    ∧ pyStrip t.text ≠ "")

lemma collectMatching_eq (spk : Seg) (tsegs : List TransSeg) :
    collectMatching spk tsegs
      = (tsegs.filter (overlapAccept spk)).map fun t => pyStrip t.text := by
  induction tsegs with
  | nil => rfl
  | cons t rest ih =>
    by_cases h1 : max spk.start t.start < min spk.stop t.stop
    · by_cases h2 : 50 < (if 0 < spk.stop - spk.start then
          (min spk.stop t.stop - max spk.start t.start)
            / (spk.stop - spk.start) * 100
        else 0) ∧ pyStrip t.text ≠ ""
      · have hacc : overlapAccept spk t = true := by
          simp only [overlapAccept, decide_eq_true_eq]
          exact ⟨h1, h2.1, h2.2⟩
        simp only [collectMatching, if_pos h1, if_pos h2, List.filter_cons,
          hacc, List.map_cons, ih]
        simp
      · have hacc : overlapAccept spk t = false := by
          simp only [overlapAccept, decide_eq_false_iff_not]
          intro hc
          exact h2 ⟨hc.2.1, hc.2.2⟩
        simp only [collectMatching, if_pos h1, if_neg h2, List.filter_cons,
          hacc, ih]
        simp
    · have hacc : overlapAccept spk t = false := by
        simp only [overlapAccept, decide_eq_false_iff_not]
        intro hc
        exact h1 hc.1
      simp only [collectMatching, if_neg h1, List.filter_cons, hacc, ih]
      simp

lemma closestLoop_min (s : ℚ) :
    ∀ (tsegs : List TransSeg) (cd : Option ℚ) (best : String),
      (∃ t ∈ tsegs, closestLoop s tsegs cd best = pyStrip t.text
          ∧ (∀ u ∈ tsegs, |s - t.start| ≤ |s - u.start|)
          ∧ (∀ d, cd = some d → |s - t.start| < d))
      ∨ (closestLoop s tsegs cd best = best
          ∧ ∀ u ∈ tsegs, ∀ d, cd = some d → d ≤ |s - u.start|) := by
  intro tsegs
  induction tsegs with
  | nil =>
    intro cd best
    right
    exact ⟨rfl, by simp⟩
  | cons t rest ih =>
    intro cd best
    by_cases hlt : distLt (|s - t.start|) cd = true
    · rw [closestLoop, if_pos hlt]
      rcases ih (some (|s - t.start|)) (pyStrip t.text) with
        ⟨t', ht', heq, hmin, hcd⟩ | ⟨heq, hge⟩
      · left
        refine ⟨t', List.mem_cons_of_mem t ht', heq, ?_, ?_⟩
        · intro u hu
          rcases List.mem_cons.mp hu with hu | hu
          · rw [hu]
            exact le_of_lt (hcd _ rfl)
          · exact hmin u hu
        · intro d hd
          subst hd
          simp only [distLt, decide_eq_true_eq] at hlt
          have h1 := hcd (|s - t.start|) rfl
          linarith
      · left
        refine ⟨t, List.mem_cons_self t rest, heq, ?_, ?_⟩
        · intro u hu
          rcases List.mem_cons.mp hu with hu | hu
          · rw [hu]
          · exact hge u hu (|s - t.start|) rfl
        · intro d hd
          subst hd
          simp only [distLt, decide_eq_true_eq] at hlt
          exact hlt
    · have hcd0 : ∃ cd0, cd = some cd0 ∧ cd0 ≤ |s - t.start| := by
        cases cd with
        | none => simp [distLt] at hlt
        | some cd0 =>
          refine ⟨cd0, rfl, ?_⟩
          simp only [distLt, decide_eq_true_eq] at hlt
          exact not_lt.mp hlt
      obtain ⟨cd0, rfl, hle⟩ := hcd0
      rw [closestLoop, if_neg hlt]
      rcases ih (some cd0) best with ⟨t', ht', heq, hmin, hcdlt⟩ | ⟨heq, hge⟩
      · left
        refine ⟨t', List.mem_cons_of_mem t ht', heq, ?_, hcdlt⟩
        intro u hu
        rcases List.mem_cons.mp hu with hu | hu
        · rw [hu]
          have := hcdlt cd0 rfl
          linarith
        · exact hmin u hu
      · right
        refine ⟨heq, ?_⟩
        intro u hu d hd
        have hd' : cd0 = d := Option.some.inj hd
        subst hd'
        rcases List.mem_cons.mp hu with hu | hu
        · rw [hu]
          exact hle
        · exact hge u hu cd0 rfl

lemma closest_text_min (tsegs : List TransSeg) (s : ℚ) (hne : tsegs ≠ []) :
    ∃ t ∈ tsegs, closest_text tsegs s = pyStrip t.text
      ∧ ∀ u ∈ tsegs, |s - t.start| ≤ |s - u.start| := by
  cases tsegs with
  | nil => exact absurd rfl hne
  | cons t rest =>
    rw [closest_text, closestLoop, if_pos (by simp [distLt])]
    rcases closestLoop_min s rest (some (|s - t.start|)) (pyStrip t.text) with
      ⟨t', ht', heq, hmin, hlt⟩ | ⟨heq, hge⟩
    · refine ⟨t', List.mem_cons_of_mem t ht', heq, ?_⟩
      intro u hu
      rcases List.mem_cons.mp hu with hu | hu
      · rw [hu]
        exact le_of_lt (hlt _ rfl)
      · exact hmin u hu
    · refine ⟨t, List.mem_cons_self t rest, heq, ?_⟩
      intro u hu
      rcases List.mem_cons.mp hu with hu | hu
      · rw [hu]
      · exact hge u hu _ rfl

/-- C6 (amended): the aligned transcript is the single-space join, in the
transcript stream's own order, of the stripped texts of the segments with
positive overlap strictly exceeding 50% of the speaker duration and
nonblank stripped text; when no segment qualifies, it falls back to the
stripped text of a segment whose start-distance to the speaker start is
minimal (first occurrence on ties); and an empty transcript stream yields
the empty string with word count 0. -/
theorem c6_amended :
    (∀ (tsegs : List TransSeg) (spk : Seg),
        (match_one tsegs spk).transcript
          = (if (tsegs.filter (overlapAccept spk)).isEmpty
             then closest_text tsegs spk.start
             else String.intercalate " "
               ((tsegs.filter (overlapAccept spk)).map fun t => pyStrip t.text)))
    ∧ (∀ (tsegs : List TransSeg) (spk : Seg), tsegs ≠ [] →
        (tsegs.filter (overlapAccept spk)).isEmpty = true →
        ∃ t ∈ tsegs, (match_one tsegs spk).transcript = pyStrip t.text
          ∧ ∀ u ∈ tsegs, |spk.start - t.start| ≤ |spk.start - u.start|)
    ∧ (∀ spk : Seg, (match_one [] spk).transcript = ""
        ∧ (match_one [] spk).word_count = 0) := by
  have hm : ∀ (tsegs : List TransSeg) (spk : Seg),
      (match_one tsegs spk).transcript
        = (if (tsegs.filter (overlapAccept spk)).isEmpty
           then closest_text tsegs spk.start
           else String.intercalate " "
             ((tsegs.filter (overlapAccept spk)).map fun t => pyStrip t.text)) := by
    intro tsegs spk
    simp only [match_one, collectMatching_eq]
    by_cases hemp : ((tsegs.filter (overlapAccept spk)).map
        fun t => pyStrip t.text).isEmpty = true
    · have hemp2 : (tsegs.filter (overlapAccept spk)).isEmpty = true := by
        simpa using hemp
      rw [if_pos hemp, if_pos hemp2]
    · have hemp2 : ¬ (tsegs.filter (overlapAccept spk)).isEmpty = true := by
        simpa using hemp
      rw [if_neg hemp, if_neg hemp2]
  refine ⟨hm, ?_, ?_⟩
  · intro tsegs spk hne hemp
    obtain ⟨t, ht, heq, hmin⟩ := closest_text_min tsegs spk.start hne
    refine ⟨t, ht, ?_, hmin⟩
    rw [hm tsegs spk, if_pos hemp]
    exact heq
  · intro spk
    constructor <;> rfl

/-- Witness for C6: the counterexample stream is nonempty and has no
accepted segment, and the fallback picks the distance-minimal segment. -/
theorem c6_amended_witness :
    exTSegs ≠ [] ∧ (exTSegs.filter (overlapAccept exSpk)).isEmpty = true ∧
      ∃ t ∈ exTSegs, (match_one exTSegs exSpk).transcript = pyStrip t.text
        ∧ ∀ u ∈ exTSegs, |exSpk.start - t.start| ≤ |exSpk.start - u.start| := by
  have hemp : (exTSegs.filter (overlapAccept exSpk)).isEmpty = true := by
    norm_num [exTSegs, exSpk, List.filter, overlapAccept,
      show pyStrip " " = "" from by decide]
  exact ⟨by decide, hemp,
    c6_amended.2.1 exTSegs exSpk (by decide) hemp⟩

/-! ## `_merge_speaker_segments` (`app/tasks/speaker_enhancement.py`,
lines 65-95) -/

/-- Stable insertion into a start-sorted list: one step of the stable sort
`sorted(segments, key=lambda x: x.get('start', 0))` of line 74. -/
def insertSeg (g : Seg) : List Seg → List Seg
  | [] => [g]
  | b :: rest =>
      if g.start ≤ b.start then g :: b :: rest else b :: insertSeg g rest

/-- Stable sort by start time (line 74). -/
def sortSegsByStart (l : List Seg) : List Seg := l.foldr insertSeg []

/-- The sweep of lines 76-95: merge the next segment into the running
current segment iff the speaker matches and the gap
`next.start - current.end` is at most the 0.5 s merge threshold; the merged
segment takes the next segment's end and the maximum confidence. (The typed
model always carries a confidence, so the Python `.get(…, 0.9)` defaults
never fire.) -/
def mergeLoop (cur : Seg) : List Seg → List Seg
  | [] => [cur]
  | nxt :: rest =>
      if nxt.speakerId = cur.speakerId ∧ nxt.start - cur.stop ≤ 1/2 then
        mergeLoop ⟨cur.start, nxt.stop, cur.speakerId,
          max cur.confidence nxt.confidence⟩ rest
      else cur :: mergeLoop nxt rest

/-- `_merge_speaker_segments`: sort by start, then sweep-merge. Empty input
returns empty (line 70-71). -/
def merge_speaker_segments (segs : List Seg) : List Seg :=
  match sortSegsByStart segs with
  | [] => []
  | a :: rest => mergeLoop a rest

/-- Two overlapping segments of different speakers. -/
def overlapEx : List Seg := [⟨0, 10, "S1", 1⟩, ⟨1, 2, "S2", 1⟩]

/-- C2: overlapping segments of different speakers pass through the merger
untouched, so the output is not pairwise non-overlapping for arbitrary raw
input. -/
theorem c2_counterexample :
    merge_speaker_segments overlapEx = overlapEx ∧
      ¬ List.Pairwise (fun a b : Seg => a.stop ≤ b.start ∨ b.stop ≤ a.start)
          (merge_speaker_segments overlapEx) := by
  have hne : ("S2" : String) ≠ "S1" := by decide
  have h : merge_speaker_segments overlapEx = overlapEx := by
    norm_num [merge_speaker_segments, overlapEx, sortSegsByStart, insertSeg,
      mergeLoop, List.foldr, hne]
  refine ⟨h, ?_⟩
  rw [h]
  intro hp
  rw [overlapEx, List.pairwise_cons] at hp
  have := hp.1 ⟨1, 2, "S2", 1⟩ (by simp)
  norm_num at this

lemma insertSeg_mem (g : Seg) (l : List Seg) :
    ∀ x ∈ insertSeg g l, x = g ∨ x ∈ l := by
  induction l with
  | nil => intro x hx; simp [insertSeg] at hx; exact Or.inl hx
  | cons b rest ih =>
    intro x hx
    by_cases hle : g.start ≤ b.start
    · rw [insertSeg, if_pos hle] at hx
      rcases List.mem_cons.mp hx with hx | hx
      · exact Or.inl hx
      · exact Or.inr hx
    · rw [insertSeg, if_neg hle] at hx
      rcases List.mem_cons.mp hx with hx | hx
      · exact Or.inr (hx ▸ List.mem_cons_self b rest)
      · rcases ih x hx with hx | hx
        · exact Or.inl hx
        · exact Or.inr (List.mem_cons_of_mem b hx)

lemma insertSeg_sorted (g : Seg) (l : List Seg)
    (hl : List.Pairwise (fun a b : Seg => a.start ≤ b.start) l) :
    List.Pairwise (fun a b : Seg => a.start ≤ b.start) (insertSeg g l) := by
  induction l with
  | nil => simp [insertSeg]
  | cons b rest ih =>
    rw [List.pairwise_cons] at hl
    by_cases hle : g.start ≤ b.start
    · rw [insertSeg, if_pos hle]
      rw [List.pairwise_cons]
      refine ⟨?_, List.pairwise_cons.mpr hl⟩
      intro y hy
      rcases List.mem_cons.mp hy with hy | hy
      · rw [hy]
        exact hle
      · exact le_trans hle (hl.1 y hy)
    · rw [insertSeg, if_neg hle]
      rw [List.pairwise_cons]
      refine ⟨?_, ih hl.2⟩
      intro y hy
      rcases insertSeg_mem g rest y hy with hy | hy
      · rw [hy]
        exact le_of_not_le hle
      · exact hl.1 y hy

lemma sortSegsByStart_sorted (l : List Seg) :
    List.Pairwise (fun a b : Seg => a.start ≤ b.start) (sortSegsByStart l) := by
  induction l with
  | nil => simp [sortSegsByStart]
  | cons g rest ih => exact insertSeg_sorted g _ ih

lemma insertSeg_perm (g : Seg) (l : List Seg) :
    List.Perm (insertSeg g l) (g :: l) := by
  induction l with
  | nil => simp [insertSeg]
  | cons b rest ih =>
    by_cases hle : g.start ≤ b.start
    · rw [insertSeg, if_pos hle]
    · rw [insertSeg, if_neg hle]
      exact (ih.cons b).trans (List.Perm.swap g b rest)

lemma sortSegsByStart_perm (l : List Seg) :
    List.Perm (sortSegsByStart l) l := by
  induction l with
  | nil => simp [sortSegsByStart]
  | cons g rest ih =>
    exact (insertSeg_perm g (sortSegsByStart rest)).trans (ih.cons g)

lemma mergeLoop_start_mem (rest : List Seg) :
    ∀ (cur : Seg), ∀ x ∈ mergeLoop cur rest,
      x.start = cur.start ∨ ∃ y ∈ rest, x.start = y.start := by
  induction rest with
  | nil =>
    intro cur x hx
    simp [mergeLoop] at hx
    exact Or.inl (by rw [hx])
  | cons nxt rest ih =>
    intro cur x hx
    by_cases hm : nxt.speakerId = cur.speakerId ∧ nxt.start - cur.stop ≤ 1/2
    · rw [mergeLoop, if_pos hm] at hx
      rcases ih _ x hx with hx | ⟨y, hy, hxy⟩
      · exact Or.inl hx
      · exact Or.inr ⟨y, List.mem_cons_of_mem nxt hy, hxy⟩
    · rw [mergeLoop, if_neg hm] at hx
      rcases List.mem_cons.mp hx with hx | hx
      · exact Or.inl (by rw [hx])
      · rcases ih nxt x hx with hx | ⟨y, hy, hxy⟩
        · exact Or.inr ⟨nxt, List.mem_cons_self nxt rest, hx⟩
        · exact Or.inr ⟨y, List.mem_cons_of_mem nxt hy, hxy⟩

lemma mergeLoop_sorted (rest : List Seg) :
    ∀ (cur : Seg),
      List.Pairwise (fun a b : Seg => a.start ≤ b.start) (cur :: rest) →
      List.Pairwise (fun a b : Seg => a.start ≤ b.start) (mergeLoop cur rest) := by
  induction rest with
  | nil => intro cur _; simp [mergeLoop]
  | cons nxt rest ih =>
    intro cur h
    rw [List.pairwise_cons] at h
    obtain ⟨hcur, hnr⟩ := h
    rw [List.pairwise_cons] at hnr
    by_cases hm : nxt.speakerId = cur.speakerId ∧ nxt.start - cur.stop ≤ 1/2
    · rw [mergeLoop, if_pos hm]
      apply ih
      rw [List.pairwise_cons]
      refine ⟨?_, hnr.2⟩
      intro y hy
      exact hcur y (List.mem_cons_of_mem nxt hy)
    · rw [mergeLoop, if_neg hm]
      rw [List.pairwise_cons]
      refine ⟨?_, ih nxt (List.pairwise_cons.mpr hnr)⟩
      intro y hy
      rcases mergeLoop_start_mem rest nxt y hy with hy2 | ⟨z, hz, hyz⟩
      · rw [hy2]
        exact hcur nxt (List.mem_cons_self nxt rest)
      · rw [hyz]
        exact hcur z (List.mem_cons_of_mem nxt hz)

lemma mergeLoop_sep (rest : List Seg) :
    ∀ (cur : Seg),
      List.Pairwise (fun a b : Seg => a.stop ≤ b.start) (cur :: rest) →
      List.Pairwise (fun a b : Seg => a.stop ≤ b.start) (mergeLoop cur rest) := by
  induction rest with
  | nil => intro cur _; simp [mergeLoop]
  | cons nxt rest ih =>
    intro cur h
    rw [List.pairwise_cons] at h
    obtain ⟨hcur, hnr⟩ := h
    rw [List.pairwise_cons] at hnr
    by_cases hm : nxt.speakerId = cur.speakerId ∧ nxt.start - cur.stop ≤ 1/2
    · rw [mergeLoop, if_pos hm]
      apply ih
      rw [List.pairwise_cons]
      exact ⟨fun y hy => hnr.1 y hy, hnr.2⟩
    · rw [mergeLoop, if_neg hm]
      rw [List.pairwise_cons]
      refine ⟨?_, ih nxt (List.pairwise_cons.mpr hnr)⟩
      intro y hy
      rcases mergeLoop_start_mem rest nxt y hy with hy2 | ⟨z, hz, hyz⟩
      · rw [hy2]
        exact hcur nxt (List.mem_cons_self nxt rest)
      · rw [hyz]
        exact hcur z (List.mem_cons_of_mem nxt hz)

lemma sorted_disjoint_sep (l : List Seg)
    (hs : List.Pairwise (fun a b : Seg => a.start ≤ b.start) l)
    (hv : ∀ g ∈ l, g.start < g.stop)
    (hd : List.Pairwise (fun a b : Seg => a.stop ≤ b.start ∨ b.stop ≤ a.start) l) :
    List.Pairwise (fun a b : Seg => a.stop ≤ b.start) l := by
  induction l with
  | nil => simp
  | cons a rest ih =>
    rw [List.pairwise_cons] at hs hd ⊢
    refine ⟨?_, ih hs.2 (fun g hg => hv g (List.mem_cons_of_mem a hg)) hd.2⟩
    intro b hb
    rcases hd.1 b hb with hab | hba
    · exact hab
    · exfalso
      have h1 := hs.1 b hb
      have h2 := hv b (List.mem_cons_of_mem a hb)
      have h3 := hv a (List.mem_cons_self a rest)
      linarith

/-- C2 (amended): the merger's output is always sorted by start time; and
when the raw input segments are pairwise non-overlapping (with positive
durations, as the data model requires), the output is also pairwise
non-overlapping. For raw input containing overlapping segments of different
speakers, the overlap survives to the output (see the counterexample). -/
theorem c2_amended :
    (∀ segs : List Seg,
        List.Pairwise (fun a b : Seg => a.start ≤ b.start)
          (merge_speaker_segments segs))
    ∧ (∀ segs : List Seg,
        (∀ g ∈ segs, g.start < g.stop) →
        List.Pairwise (fun a b : Seg => a.stop ≤ b.start ∨ b.stop ≤ a.start) segs →
        List.Pairwise (fun a b : Seg => a.stop ≤ b.start)
          (merge_speaker_segments segs)) := by
  constructor
  · intro segs
    rw [merge_speaker_segments]
    cases hsort : sortSegsByStart segs with
    | nil => simp
    | cons a rest =>
      apply mergeLoop_sorted
      rw [← hsort]
      exact sortSegsByStart_sorted segs
  · intro segs hv hd
    have hperm := sortSegsByStart_perm segs
    have hs := sortSegsByStart_sorted segs
    have hv2 : ∀ g ∈ sortSegsByStart segs, g.start < g.stop := by
      intro g hg
      exact hv g (hperm.mem_iff.mp hg)
    have hd2 : List.Pairwise
        (fun a b : Seg => a.stop ≤ b.start ∨ b.stop ≤ a.start)
        (sortSegsByStart segs) := by
      apply hd.perm hperm.symm
      intro a b hab
      rcases hab with h | h
      · exact Or.inr h
      · exact Or.inl h
    have hsep := sorted_disjoint_sep _ hs hv2 hd2
    rw [merge_speaker_segments]
    cases hsort : sortSegsByStart segs with
    | nil => simp
    | cons a rest =>
      apply mergeLoop_sep
      rw [← hsort]
      exact hsep

/-- Witness for C2 at two disjoint same-speaker segments with a 0.3 s gap
(the spec's Scenario E input). -/
theorem c2_amended_witness :
    (∀ g ∈ [(⟨0, 2, "S1", 1⟩ : Seg), ⟨23/10, 4, "S1", 1⟩], g.start < g.stop) ∧
    List.Pairwise (fun a b : Seg => a.stop ≤ b.start ∨ b.stop ≤ a.start)
      [(⟨0, 2, "S1", 1⟩ : Seg), ⟨23/10, 4, "S1", 1⟩] ∧
    List.Pairwise (fun a b : Seg => a.stop ≤ b.start)
      (merge_speaker_segments [(⟨0, 2, "S1", 1⟩ : Seg), ⟨23/10, 4, "S1", 1⟩]) := by
  have hv : ∀ g ∈ [(⟨0, 2, "S1", 1⟩ : Seg), ⟨23/10, 4, "S1", 1⟩],
      g.start < g.stop := by
    intro g hg
    rcases List.mem_cons.mp hg with hg | hg
    · rw [hg]; norm_num
    · rcases List.mem_cons.mp hg with hg | hg
      · rw [hg]; norm_num
      · simp at hg
  have hd : List.Pairwise (fun a b : Seg => a.stop ≤ b.start ∨ b.stop ≤ a.start)
      [(⟨0, 2, "S1", 1⟩ : Seg), ⟨23/10, 4, "S1", 1⟩] := by
    rw [List.pairwise_cons]
    refine ⟨?_, by simp⟩
    intro b hb
    rcases List.mem_cons.mp hb with hb | hb
    · rw [hb]; left; norm_num
    · simp at hb
  exact ⟨hv, hd, c2_amended.2 _ hv hd⟩

/-! ### C10: inline division guards -/

lemma round2_zero : round2 0 = 0 := by
  norm_num [round2, pyRound]

/-- C10: every division in the metric computations is guarded inline — the
participation percentage when the total talk time is not positive, the
turn-taking frequency when the duration is not positive, the filler ratio
when the word count is zero, the silence percentage when the analysis
window has no positive length, and the average pause duration when no pause
was retained — and each guarded case yields 0. -/
theorem c10_division_guards :
    (∀ segs : List Seg, ¬ 0 < sumValues (speaker_talk_time segs) →
        ∀ p ∈ speaker_participation segs, p.2 = 0)
    ∧ (∀ (segs : List Seg) (d : ℚ), ¬ 0 < d → turn_taking_frequency segs d = 0)
    ∧ (∀ (matcher : String → String → ℕ) (t sid : String),
        wordCount t = 0 →
        (detect_fillers_from_transcript matcher t sid).filler_ratio = 0)
    ∧ (∀ (frames : List Bool) (sr segStart segEnd : ℚ),
        ¬ 0 < segEnd - segStart →
        (detect_silence_in_segment frames sr segStart segEnd).silence_percentage = 0)
    ∧ (∀ (frames : List Bool) (sr segStart segEnd : ℚ),
        (detect_silence_in_segment frames sr segStart segEnd).pause_count = 0 →
        (detect_silence_in_segment frames sr segStart segEnd).average_pause_duration
          = 0) := by
  refine ⟨?_, ?_, ?_, ?_, ?_⟩
  · intro segs h p hp
    simp only [speaker_participation, if_neg h, List.mem_map] at hp
    obtain ⟨q, _, rfl⟩ := hp
    rfl
  · intro segs d h
    rw [turn_taking_frequency, if_neg h]
  · intro matcher t sid h
    simp [detect_fillers_from_transcript, h]
  · intro frames sr segStart segEnd h
    have h' : ¬ segStart < segEnd := fun hc => h (by linarith)
    by_cases hemp : frames.isEmpty
    · simp [detect_silence_in_segment, hemp]
    · simp [detect_silence_in_segment, hemp, if_neg h, h', round2_zero]
  · intro frames sr segStart segEnd h
    by_cases hemp : frames.isEmpty
    · simp [detect_silence_in_segment, hemp]
    · simp only [detect_silence_in_segment, if_neg hemp] at h ⊢
      simp [h, round2_zero]

/-- Witness for C10: each guard instantiated at a concrete degenerate
input — a zero-duration segment list, duration 0, an empty transcript, a
zero-length analysis window, and a window with no retained pause. -/
theorem c10_division_guards_witness :
    (¬ 0 < sumValues (speaker_talk_time [(⟨1, 1, "S1", 1⟩ : Seg)]) ∧
      ∀ p ∈ speaker_participation [(⟨1, 1, "S1", 1⟩ : Seg)], p.2 = 0)
    ∧ turn_taking_frequency scenarioC 0 = 0
    ∧ (wordCount "" = 0 ∧
        (detect_fillers_from_transcript (fun _ _ => 3) "" "S1").filler_ratio = 0)
    ∧ (¬ 0 < (1:ℚ) - 1 ∧
        (detect_silence_in_segment [true] 16000 1 1).silence_percentage = 0)
    ∧ ((detect_silence_in_segment [false] 16000 0 1).pause_count = 0 ∧
        (detect_silence_in_segment [false] 16000 0 1).average_pause_duration = 0) := by
  have hz : sumValues (speaker_talk_time [(⟨1, 1, "S1", 1⟩ : Seg)]) = 0 := by
    norm_num [speaker_talk_time, updTalk, sumValues, List.foldl]
  have hz' : ¬ 0 < sumValues (speaker_talk_time [(⟨1, 1, "S1", 1⟩ : Seg)]) := by
    rw [hz]
    norm_num
  have hwc : wordCount "" = 0 := by decide
  have hwin : ¬ 0 < (1:ℚ) - 1 := by norm_num
  have hpc : (detect_silence_in_segment [false] 16000 0 1).pause_count = 0 := by
    norm_num [detect_silence_in_segment, detect_silence_segments, silScan]
  refine ⟨⟨hz', c10_division_guards.1 _ hz'⟩,
    c10_division_guards.2.1 scenarioC 0 (by norm_num),
    ⟨hwc, c10_division_guards.2.2.1 (fun _ _ => 3) "" "S1" hwc⟩,
    ⟨hwin, c10_division_guards.2.2.2.1 [true] 16000 1 1 hwin⟩,
    ⟨hpc, c10_division_guards.2.2.2.2 [false] 16000 0 1 hpc⟩⟩
